import Mathlib

/-!
Verification of the jira-metrics extractor (`jira_metrics.py`).

The embedding models:
* `parse_datetime` — JIRA timestamp parsing (strptime with the two primary
  formats, then the timezone-stripping `fromisoformat` fallback);
* `calculate_cycle_time` — the changelog replay state machine;
* `_make_request_with_retry` — the retry/backoff request executor;
* `get_issues` / `_get_issues_v3_jql` / `_get_issues_v3_search` — the
  two pagination strategies and the fallback composition;
* `extract_metrics` — the per-issue metric record assembly.

Machine conventions: instants are exact integer microsecond counts on a
proleptic Gregorian day count (Python's `datetime` is microsecond-exact),
minus the UTC offset; Python's aware/naive datetime distinction is kept
as a Boolean flag, and subtraction of mixed aware/naive datetimes is an
error, as in Python.  Durations are therefore exact integer microsecond
counts as well; the float division by 3600 that Python performs when it
turns a timestamp difference into hours is idealized as exact rational
division and — exact division distributing over exact sums — performed
once at the boundary where the metric record is assembled
(`usToHours`).  Fallible Python code (exceptions) is embedded with
`Except`.
-/

deriving instance DecidableEq for Except

namespace JiraMetrics

/-- A parsed Python `datetime`: `micros` is the instant in microseconds
(for aware values, microseconds of UTC; for naive values, wall-clock
microseconds), `aware` records whether the value carries a timezone. -/
structure PyDateTime where
  micros : Int
  aware : Bool
  deriving DecidableEq, Repr

/-! ### Character-level parsing helpers (model of `datetime.strptime`) -/

def digitVal (c : Char) : Nat := c.toNat - 48

def readDigitsAux : Nat → Nat → List Char → Option (Nat × List Char)
  | 0, acc, cs => some (acc, cs)
  | n + 1, acc, c :: cs =>
      if c.isDigit then readDigitsAux n (acc * 10 + digitVal c) cs else none
  | _ + 1, _, [] => none

/-- Read exactly `n` decimal digits from the front of `cs`. -/
def readDigits (n : Nat) (cs : List Char) : Option (Nat × List Char) :=
  readDigitsAux n 0 cs

def expectChar (ch : Char) : List Char → Option (List Char)
  | c :: cs => if c = ch then some cs else none
  | [] => none

def digitsVal (cs : List Char) : Nat :=
  cs.foldl (fun a c => a * 10 + digitVal c) 0

def isLeap (y : Nat) : Bool :=
  decide ((y % 4 = 0 ∧ y % 100 ≠ 0) ∨ y % 400 = 0)

def daysInMonth (y m : Nat) : Nat :=
  match m with
  | 1 => 31
  | 2 => if isLeap y then 29 else 28
  | 3 => 31
  | 4 => 30
  | 5 => 31
  | 6 => 30
  | 7 => 31
  | 8 => 31
  | 9 => 30
  | 10 => 31
  | 11 => 30
  | 12 => 31
  | _ => 0

/-- Range validation performed by `datetime` construction. -/
def validDate (y mo d h mi s : Nat) : Prop :=
  1 ≤ y ∧ 1 ≤ mo ∧ mo ≤ 12 ∧ 1 ≤ d ∧ d ≤ daysInMonth y mo ∧
    h ≤ 23 ∧ mi ≤ 59 ∧ s ≤ 59

instance (y mo d h mi s : Nat) : Decidable (validDate y mo d h mi s) := by
  unfold validDate; infer_instance

/-- Days of a proleptic Gregorian civil date counted from 0000-03-01
(Hinnant's civil-days algorithm, valid for the years `datetime` accepts). -/
def civilDays (y m d : Nat) : Nat :=
  let y2 := if m ≤ 2 then y - 1 else y
  let era := y2 / 400
  let yoe := y2 % 400
  let mp := (m + 9) % 12
  let doy := (153 * mp + 2) / 5 + d - 1
  let doe := yoe * 365 + yoe / 4 - yoe / 100 + doy
  era * 146097 + doe

/-- The instant of a parsed timestamp, in microseconds: civil days plus
time-of-day plus the `%f` microseconds, minus the UTC offset. -/
def tsMicros (y mo d h mi s micro : Nat) (off : Int) : Int :=
  ((civilDays y mo d * 86400 + h * 3600 + mi * 60 + s : Nat) : Int) * 1000000
    + (micro : Int) - off * 1000000

/-- `%z` directive: `Z`, `+HHMM`, `-HHMM`, `+HH:MM` or `-HH:MM`,
yielding the offset in seconds. -/
def parseTz : List Char → Option (Int × List Char)
  | [] => none
  | c :: cs =>
    if c = 'Z' then some (0, cs)
    else if c = '+' ∨ c = '-' then do
      let (hh, rest) ← readDigits 2 cs
      let (mm, rest2) ←
        match rest with
        | ':' :: more => readDigits 2 more
        | _ => readDigits 2 rest
      if hh ≤ 23 ∧ mm ≤ 59 then
        let secs : Int := ((hh * 3600 + mm * 60 : Nat) : Int)
        pure (if c = '-' then -secs else secs, rest2)
      else none
    else none

/-- Shared `%Y-%m-%dT%H:%M:%S` front of both strptime formats. -/
def parseYmdHms (cs : List Char) :
    Option (Nat × Nat × Nat × Nat × Nat × Nat × List Char) := do
  let (y, cs) ← readDigits 4 cs
  let cs ← expectChar '-' cs
  let (mo, cs) ← readDigits 2 cs
  let cs ← expectChar '-' cs
  let (d, cs) ← readDigits 2 cs
  let cs ← expectChar 'T' cs
  let (h, cs) ← readDigits 2 cs
  let cs ← expectChar ':' cs
  let (mi, cs) ← readDigits 2 cs
  let cs ← expectChar ':' cs
  let (s, cs) ← readDigits 2 cs
  pure (y, mo, d, h, mi, s, cs)

/-- `strptime` with `%Y-%m-%dT%H:%M:%S.%f%z` (`withFrac = true`) or
`%Y-%m-%dT%H:%M:%S%z` (`withFrac = false`); always timezone-aware. -/
def parseStrptime (withFrac : Bool) (s : String) : Option PyDateTime := do
  let (y, mo, d, h, mi, sec, rest) ← parseYmdHms s.toList
  let (micro, rest) ←
    if withFrac then do
      let rest2 ← expectChar '.' rest
      let digs := rest2.takeWhile Char.isDigit
      if digs.length = 0 ∨ 6 < digs.length then none
      else pure (digitsVal digs * 10 ^ (6 - digs.length),
                 rest2.dropWhile Char.isDigit)
    else pure (0, rest)
  let (off, rest) ← parseTz rest
  if rest = [] ∧ validDate y mo d h mi sec then
    pure ⟨tsMicros y mo d h mi sec micro off, true⟩
  else none

/-- Model of `datetime.fromisoformat` on the timezone-free ISO forms the
fallback branch feeds it (`YYYY-MM-DD[TH:MM[:SS[.f]]]`, separator `T` or a
space); the result is naive. -/
def parseIsoNaive (cs : List Char) : Option PyDateTime := do
  let (y, cs) ← readDigits 4 cs
  let cs ← expectChar '-' cs
  let (mo, cs) ← readDigits 2 cs
  let cs ← expectChar '-' cs
  let (d, cs) ← readDigits 2 cs
  match cs with
  | [] =>
      if validDate y mo d 0 0 0 then pure ⟨tsMicros y mo d 0 0 0 0 0, false⟩
      else none
  | sep :: rest =>
    if sep = 'T' ∨ sep = ' ' then do
      let (h, rest) ← readDigits 2 rest
      let rest ← expectChar ':' rest
      let (mi, rest) ← readDigits 2 rest
      match rest with
      | [] =>
          if validDate y mo d h mi 0 then pure ⟨tsMicros y mo d h mi 0 0 0, false⟩
          else none
      | ':' :: rest2 => do
        let (s, rest3) ← readDigits 2 rest2
        match rest3 with
        | [] =>
            if validDate y mo d h mi s then
              pure ⟨tsMicros y mo d h mi s 0 0, false⟩
            else none
        | '.' :: rest4 =>
            let digs := rest4.takeWhile Char.isDigit
            if digs.length = 0 ∨ 6 < digs.length ∨
                rest4.dropWhile Char.isDigit ≠ [] then none
            else if validDate y mo d h mi s then
              pure ⟨tsMicros y mo d h mi s (digitsVal digs * 10 ^ (6 - digs.length)) 0,
                    false⟩
            else none
        | _ => none
      | _ => none
    else none

/-- `JiraMetricsExtractor.parse_datetime`: try the two strptime formats in
order, then strip the timezone suffix (`split('+')[0]`, or dropping every
`Z`) and fall back to `fromisoformat`. -/
def parse_datetime (s : String) : Option PyDateTime :=
  match parseStrptime true s with
  | some dt => some dt
  | none =>
    match parseStrptime false s with
    | some dt => some dt
    | none =>
      let cs := s.toList
      let cs2 :=
        if cs.contains '+' then cs.takeWhile (fun c => c ≠ '+')
        else if cs.contains 'Z' then cs.filter (fun c => c ≠ 'Z')
        else cs
      parseIsoNaive cs2

/-! ### Data model of the JSON the extractor consumes -/

/-- One entry of `history.items`. -/
structure ChangeItem where
  field : String
  fromString : Option String
  toString : Option String
  deriving DecidableEq, Repr

/-- One entry of `changelog.histories`: the raw `created` timestamp string
and the item list. -/
structure History where
  created : String
  items : List ChangeItem
  deriving DecidableEq, Repr

structure StatusField where
  name : String
  deriving DecidableEq, Repr

/-- The `fields` object of an issue (assignee/priority/issuetype are
modelled by the display-name string the assembler extracts from them). -/
structure Fields where
  summary : String
  status : StatusField
  created : String
  resolutiondate : Option String
  assignee : Option String
  priority : Option String
  issuetype : Option String
  deriving DecidableEq, Repr

/-- An issue as returned by the API: key, fields and
`changelog.histories`. -/
structure Issue where
  key : String
  fields : Fields
  changelog : List History
  deriving DecidableEq, Repr

/-! ### `sorted(histories, key=lambda x: x['created'])`

Python compares strings lexicographically by Unicode code point. -/

/-- Lexicographic code-point comparison of character lists — Python's
`<` on strings. -/
def charListLt : List Char → List Char → Bool
  | [], [] => false
  | [], _ :: _ => true
  | _ :: _, [] => false
  | a :: as, b :: bs =>
    if a.toNat < b.toNat then true
    else if b.toNat < a.toNat then false
    else charListLt as bs

/-- Python's `a < b` on strings. -/
def pyStrLt (a b : String) : Bool := charListLt a.toList b.toList

/-- Python's `sorted` is the stable sort by the key; insertion sort
placing each element before strictly-greater keys realises exactly that
order. -/
def insertByCreated (h : History) : List History → List History
  | [] => [h]
  | h2 :: hs =>
      if pyStrLt h2.created h.created then h2 :: insertByCreated h hs
      else h :: h2 :: hs

def sortByCreated : List History → List History
  | [] => []
  | h :: hs => insertByCreated h (sortByCreated hs)

/-! ### The replay state machine of `calculate_cycle_time` -/

/-- One element of the `status_changes` list: the parsed history date and
the `fromString` / `toString` of a `status` item. -/
structure StatusChange where
  date : PyDateTime
  from_status : Option String
  to_status : Option String
  deriving DecidableEq, Repr

/-- One element of `status_periods`; `duration_us` is the exact
microsecond count whose division by 3600·10⁶ is the `duration_hours`
float the source stores. -/
structure StatusPeriod where
  status : String
  start : PyDateTime
  endDate : PyDateTime
  duration_us : Int
  deriving DecidableEq, Repr

/-- Exact value of the hours float the source computes:
`total_seconds() / 3600`. -/
def usToHours (u : Int) : ℚ := (u : ℚ) / 3600000000

/-- The `duration_hours` the source stores in a period. -/
def StatusPeriod.duration_hours (p : StatusPeriod) : ℚ :=
  usToHours p.duration_us

inductive CalcError where
  | parseError (s : String)
  | mixedAwareness
  deriving DecidableEq, Repr

/-- Python `a - b` on datetimes, exact in microseconds (the source's
`.total_seconds()` is this value divided by 10⁶): subtracting a naive
from an aware datetime (or conversely) raises `TypeError`. -/
def pySub (a b : PyDateTime) : Except CalcError Int :=
  if a.aware = b.aware then Except.ok (a.micros - b.micros)
  else Except.error CalcError.mixedAwareness

/-- The `status` items of one history, stamped with its parsed date. -/
def statusItemsOf (d : PyDateTime) (items : List ChangeItem) :
    List StatusChange :=
  items.filterMap fun it =>
    if it.field = "status" then some ⟨d, it.fromString, it.toString⟩ else none

/-- Walk the (already sorted) histories, parse each `created` (a parse
failure raises, as `parse_datetime` does) and flatten the status items. -/
def collectChanges : List History → Except CalcError (List StatusChange)
  | [] => Except.ok []
  | h :: hs =>
    match parse_datetime h.created with
    | none => Except.error (CalcError.parseError h.created)
    | some d =>
        (collectChanges hs).map fun rest => statusItemsOf d h.items ++ rest

/-- The loop state: `total_cycle_time` (exact, in microseconds),
`status_periods`, `current_cycle_start`. -/
structure ReplayState where
  total : Int
  periods : List StatusPeriod
  cycleStart : Option PyDateTime
  deriving DecidableEq, Repr

/-- "If leaving a cycle time status": close the open period. -/
def closePart (S : List String) (st : ReplayState) (c : StatusChange) :
    Except CalcError ReplayState :=
  match c.from_status with
  | some f =>
    if S.contains f then
      match st.cycleStart with
      | some cs =>
        match pySub c.date cs with
        | Except.error e => Except.error e
        | Except.ok dur =>
            Except.ok ⟨st.total + dur,
              st.periods ++ [⟨f, cs, c.date, dur⟩], none⟩
      | none => Except.ok st
    else Except.ok st
  | none => Except.ok st

/-- "If entering a cycle time status": open a new period at the event
date. -/
def openPart (S : List String) (st : ReplayState) (c : StatusChange) :
    ReplayState :=
  match c.to_status with
  | some t => if S.contains t then { st with cycleStart := some c.date } else st
  | none => st

/-- Process one status change: the close branch and the open branch fire
independently, exactly as in the loop body. -/
def step (S : List String) (st : ReplayState) (c : StatusChange) :
    Except CalcError ReplayState :=
  (closePart S st c).map fun st1 => openPart S st1 c

def runEvents (S : List String) :
    ReplayState → List StatusChange → Except CalcError ReplayState
  | st, [] => Except.ok st
  | st, c :: cs =>
    match step S st c with
    | Except.error e => Except.error e
    | Except.ok st' => runEvents S st' cs

/-- "Start from creation if first status is a cycle time status". -/
def initStart (S : List String) (created : PyDateTime)
    (changes : List StatusChange) : Option PyDateTime :=
  match changes with
  | [] => none
  | c :: _ =>
    match c.to_status with
    | some t => if S.contains t then some created else none
    | none => none

/-- The tail of `calculate_cycle_time`: `end_date = datetime.now(tz)`
overridden by the parsed `resolutiondate` when present (`now` is the
evaluation-time clock in model microseconds). -/
def finalEnd (resolutiondate : Option String) (now : Int) (aw : Bool) :
    Except CalcError PyDateTime :=
  match resolutiondate with
  | some r =>
    match parse_datetime r with
    | some e => Except.ok e
    | none => Except.error (CalcError.parseError r)
  | none => Except.ok ⟨now, aw⟩

/-- "Handle case where issue is still in a cycle time status": requires
both the snapshot's current status to be a cycle-time status and an open
`current_cycle_start`. -/
def finishUp (S : List String) (issue : Issue) (now : Int)
    (fin : ReplayState) : Except CalcError (Int × List StatusPeriod) :=
  match fin.cycleStart with
  | some cs =>
    if S.contains issue.fields.status.name then
      match finalEnd issue.fields.resolutiondate now cs.aware with
      | Except.error e => Except.error e
      | Except.ok endDate =>
        match pySub endDate cs with
        | Except.error e => Except.error e
        | Except.ok dur =>
            Except.ok (fin.total + dur,
              fin.periods ++
                [⟨issue.fields.status.name, cs, endDate, dur⟩])
    else Except.ok (fin.total, fin.periods)
  | none => Except.ok (fin.total, fin.periods)

/-- `JiraMetricsExtractor.calculate_cycle_time`.  `S` is the cycle-time
status set, `now` the evaluation-time wall clock in model microseconds.
Returns `(total_cycle_time, status_periods)`, the total as the exact
microsecond count whose `usToHours` image is the float the source
returns. -/
def calculate_cycle_time (S : List String) (now : Int) (issue : Issue) :
    Except CalcError (Int × List StatusPeriod) :=
  if issue.changelog = [] then Except.ok (0, [])
  else
    match parse_datetime issue.fields.created with
    | none => Except.error (CalcError.parseError issue.fields.created)
    | some created =>
      match collectChanges (sortByCreated issue.changelog) with
      | Except.error e => Except.error e
      | Except.ok changes =>
        match runEvents S ⟨0, [], initStart S created changes⟩ changes with
        | Except.error e => Except.error e
        | Except.ok fin => finishUp S issue now fin

/-! ### `_make_request_with_retry` -/

/-- Outcome of one `session.request` call: a network-level
`RequestException`, or a response with a status code and body. -/
inductive AttemptResult where
  | netErr
  | resp (status : Nat) (body : String)
  deriving DecidableEq, Repr

/-- The error finally surfaced to the caller: the `HTTPError` of
`raise_for_status`, a network-level exception, or the generic
`Exception` raised after the loop. -/
inductive ReqError where
  | httpStatus (code : Nat)
  | network
  | exhausted (attempts : Nat)
  deriving DecidableEq, Repr

/-- The observable trace of one logical call: the surfaced result (body on
success), the number of request attempts issued, the number of
exponential-backoff sleeps, and the number of `Retry-After` waits. -/
structure RetryTrace where
  result : Except ReqError String
  attempts : Nat
  backoffSleeps : Nat
  retryAfterWaits : Nat
  deriving DecidableEq, Repr

/-- The body of `for attempt in range(self.max_retries)`.  Note that
`raise_for_status()` raises `requests.HTTPError`, a subclass of
`RequestException`, so a 4xx response raised at the "Success or client
error" line is caught by the generic handler and retried unless this was
the final attempt — faithfully modelled here. -/
def retryGo (responses : Nat → AttemptResult) (maxRetries : Nat) :
    Nat → Nat → Nat → Nat → Nat → RetryTrace
  | 0, _, a, b, r => ⟨Except.error (ReqError.exhausted maxRetries), a, b, r⟩
  | remaining + 1, attempt, a, b, r =>
    match responses attempt with
    | AttemptResult.netErr =>
      if attempt = maxRetries - 1 then ⟨Except.error ReqError.network, a + 1, b, r⟩
      else retryGo responses maxRetries remaining (attempt + 1) (a + 1) (b + 1) r
    | AttemptResult.resp status body =>
      if status = 429 then
        retryGo responses maxRetries remaining (attempt + 1) (a + 1) b (r + 1)
      else if 500 ≤ status then
        if attempt = maxRetries - 1 then
          ⟨Except.error (ReqError.httpStatus status), a + 1, b, r⟩
        else retryGo responses maxRetries remaining (attempt + 1) (a + 1) (b + 1) r
      else if 400 ≤ status then
        if attempt = maxRetries - 1 then
          ⟨Except.error (ReqError.httpStatus status), a + 1, b, r⟩
        else retryGo responses maxRetries remaining (attempt + 1) (a + 1) (b + 1) r
      else ⟨Except.ok body, a + 1, b, r⟩

/-- `_make_request_with_retry`, driven by the response each attempt
number receives. -/
def makeRequestWithRetry (responses : Nat → AttemptResult)
    (maxRetries : Nat) : RetryTrace :=
  retryGo responses maxRetries maxRetries 0 0 0 0

/-! ### Pagination strategies and `get_issues` -/

inductive FetchErr where
  | requestFailed (msg : String)
  | outOfFuel
  deriving DecidableEq, Repr

/-- A page of the offset-based `/rest/api/3/search` endpoint. -/
structure SearchPage where
  issues : List Issue
  total : Nat
  deriving Repr

/-- A page of the token-based `/rest/api/3/search/jql` endpoint: the
lightweight issue ids, `isLast` and the continuation token. -/
structure JqlPage where
  ids : List String
  isLast : Bool
  nextPageToken : Option String
  deriving Repr

/-- The `while len(issues) < max_results` loop of `_get_issues_v3_search`,
with fuel making the (server-controlled) loop a total function; the
server is a function of `startAt` and the requested page size. -/
def getIssuesV3SearchGo (server : Nat → Nat → Except FetchErr SearchPage)
    (maxResults : Nat) : Nat → Nat → List Issue → Except FetchErr (List Issue)
  | 0, _, _ => Except.error FetchErr.outOfFuel
  | fuel + 1, startAt, acc =>
    if maxResults ≤ acc.length then Except.ok acc
    else
      match server startAt (min (maxResults - acc.length) 100) with
      | Except.error e => Except.error e
      | Except.ok page =>
        let acc2 := acc ++ page.issues
        if page.issues.length = 0 ∨ page.total ≤ acc2.length then Except.ok acc2
        else getIssuesV3SearchGo server maxResults fuel
          (startAt + page.issues.length) acc2

/-- `_get_issues_v3_search`: the offset strategy, started at offset 0 with
an empty accumulator. -/
def getIssuesV3Search (server : Nat → Nat → Except FetchErr SearchPage)
    (maxResults fuel : Nat) : Except FetchErr (List Issue) :=
  getIssuesV3SearchGo server maxResults fuel 0 []

/-- The loop of `_get_issues_v3_jql`: one list call per page, then one
detail call per returned id; `_get_issue_detail` swallows its own errors
and returns `None`, so failed details are skipped (`filterMap`). -/
def getIssuesV3JqlGo (server : Option String → Nat → Except FetchErr JqlPage)
    (detail : String → Option Issue) (maxResults : Nat) :
    Nat → Option String → List Issue → Except FetchErr (List Issue)
  | 0, _, _ => Except.error FetchErr.outOfFuel
  | fuel + 1, token, acc =>
    if maxResults ≤ acc.length then Except.ok acc
    else
      match server token (min (maxResults - acc.length) 100) with
      | Except.error e => Except.error e
      | Except.ok page =>
        let acc2 := acc ++ page.ids.filterMap detail
        if page.isLast || page.nextPageToken.isNone then Except.ok acc2
        else getIssuesV3JqlGo server detail maxResults fuel page.nextPageToken acc2

/-- `_get_issues_v3_jql`: the token-cursor strategy, started with no
token. -/
def getIssuesV3Jql (server : Option String → Nat → Except FetchErr JqlPage)
    (detail : String → Option Issue) (maxResults fuel : Nat) :
    Except FetchErr (List Issue) :=
  getIssuesV3JqlGo server detail maxResults fuel none []

/-- `get_issues`: try the token-cursor strategy; on any exception fall
back to the offset strategy, restarted from scratch. -/
def get_issues (jqlServer : Option String → Nat → Except FetchErr JqlPage)
    (detail : String → Option Issue)
    (searchServer : Nat → Nat → Except FetchErr SearchPage)
    (maxResults fuel : Nat) : Except FetchErr (List Issue) :=
  match getIssuesV3Jql jqlServer detail maxResults fuel with
  | Except.ok issues => Except.ok issues
  | Except.error _ => getIssuesV3Search searchServer maxResults fuel

/-! ### `extract_metrics` -/

/-- One output record of `extract_metrics`. -/
structure MetricRecord where
  key : String
  summary : String
  status : String
  created : String
  resolved : Option String
  assignee : Option String
  priority : Option String
  issue_type : Option String
  cycle_time_hours : ℚ
  cycle_time_days : ℚ
  status_periods : List StatusPeriod
  deriving DecidableEq, Repr

/-- The record appended for one issue (`cycle_time_days` is
`cycle_time / 24 if cycle_time > 0 else 0`, where `cycle_time` is the
hours value returned by `calculate_cycle_time`). -/
def mkMetric (S : List String) (now : Int) (issue : Issue) :
    Except CalcError MetricRecord :=
  match calculate_cycle_time S now issue with
  | Except.error e => Except.error e
  | Except.ok (ctUs, ps) =>
      let ct : ℚ := usToHours ctUs
      Except.ok ⟨issue.key, issue.fields.summary, issue.fields.status.name,
        issue.fields.created, issue.fields.resolutiondate,
        issue.fields.assignee, issue.fields.priority, issue.fields.issuetype,
        ct, if ct > 0 then ct / 24 else 0, ps⟩

/-- `extract_metrics` over an already-fetched issue list. -/
def extract_metrics (S : List String) (now : Int) :
    List Issue → Except CalcError (List MetricRecord)
  | [] => Except.ok []
  | i :: is =>
    match mkMetric S now i with
    | Except.error e => Except.error e
    | Except.ok m =>
      match extract_metrics S now is with
      | Except.error e => Except.error e
      | Except.ok ms => Except.ok (m :: ms)

/-! ## Order theory of the Python string comparison -/

theorem char_eq_of_not_lt_not_lt {c d : Char}
    (h1 : ¬ c.toNat < d.toNat) (h2 : ¬ d.toNat < c.toNat) : c = d := by
  have h : c.toNat = d.toNat := le_antisymm (le_of_not_lt h2) (le_of_not_lt h1)
  exact Char.ext (UInt32.ext h)

theorem charListLt_irrefl : ∀ a : List Char, charListLt a a = false
  | [] => rfl
  | c :: as => by simp [charListLt, Nat.lt_irrefl, charListLt_irrefl as]

theorem charListLt_trans :
    ∀ a b c : List Char, charListLt a b = true → charListLt b c = true →
      charListLt a c = true := by
  intro a
  induction a with
  | nil =>
    intro b c hab hbc
    cases c with
    | nil =>
      cases b with
      | nil => exact absurd hab (by simp [charListLt])
      | cons d bs => exact absurd hbc (by simp [charListLt])
    | cons e cs => simp [charListLt]
  | cons x as ih =>
    intro b c hab hbc
    cases b with
    | nil => exact absurd hab (by simp [charListLt])
    | cons y bs =>
      cases c with
      | nil => exact absurd hbc (by simp [charListLt])
      | cons z cs =>
        simp only [charListLt] at hab hbc ⊢
        by_cases hxy : x.toNat < y.toNat
        · by_cases hyz : y.toNat < z.toNat
          · simp [Nat.lt_trans hxy hyz]
          · by_cases hzy : z.toNat < y.toNat
            · rw [if_neg hyz, if_pos hzy] at hbc
              exact absurd hbc (by simp)
            · have hyzE : y = z := char_eq_of_not_lt_not_lt hyz hzy
              simp [hyzE ▸ hxy]
        · by_cases hyx : y.toNat < x.toNat
          · rw [if_neg hxy, if_pos hyx] at hab
            exact absurd hab (by simp)
          · have hxyE : x = y := char_eq_of_not_lt_not_lt hxy hyx
            subst hxyE
            rw [if_neg hxy, if_neg hyx] at hab
            by_cases hyz : x.toNat < z.toNat
            · simp [hyz]
            · by_cases hzy : z.toNat < x.toNat
              · rw [if_neg hyz, if_pos hzy] at hbc
                exact absurd hbc (by simp)
              · have hxzE : x = z := char_eq_of_not_lt_not_lt hyz hzy
                subst hxzE
                rw [if_neg hyz, if_neg hzy] at hbc
                simp only [if_neg hyz, if_neg hzy]
                exact ih bs cs hab hbc

theorem charListLt_trichotomy :
    ∀ a b : List Char, charListLt a b = true ∨ a = b ∨ charListLt b a = true := by
  intro a
  induction a with
  | nil =>
    intro b
    cases b with
    | nil => exact Or.inr (Or.inl rfl)
    | cons y bs => exact Or.inl (by simp [charListLt])
  | cons x as ih =>
    intro b
    cases b with
    | nil => exact Or.inr (Or.inr (by simp [charListLt]))
    | cons y bs =>
      by_cases hxy : x.toNat < y.toNat
      · exact Or.inl (by simp [charListLt, hxy])
      · by_cases hyx : y.toNat < x.toNat
        · exact Or.inr (Or.inr (by simp [charListLt, hyx]))
        · have hxyE : x = y := char_eq_of_not_lt_not_lt hxy hyx
          subst hxyE
          rcases ih bs with h | h | h
          · exact Or.inl (by simp [charListLt, Nat.lt_irrefl, h])
          · exact Or.inr (Or.inl (by rw [h]))
          · exact Or.inr (Or.inr (by simp [charListLt, Nat.lt_irrefl, h]))

theorem charListLt_asymm {a b : List Char} (h : charListLt a b = true) :
    charListLt b a = false := by
  by_contra hne
  rw [Bool.not_eq_false] at hne
  have h2 := charListLt_trans a b a h hne
  rw [charListLt_irrefl] at h2
  exact absurd h2 (by simp)

/-- Transitivity of `≤` (complement of the strict comparison). -/
theorem charListLt_le_trans {a b c : List Char} (h1 : charListLt b a = false)
    (h2 : charListLt c b = false) : charListLt c a = false := by
  by_contra hne
  rw [Bool.not_eq_false] at hne
  rcases charListLt_trichotomy b c with hbc | hbcE | hcb
  · have := charListLt_trans b c a hbc hne
    rw [h1] at this
    exact absurd this (by simp)
  · rw [hbcE] at h1
    rw [hne] at h1
    exact absurd h1 (by simp)
  · rw [hcb] at h2
    exact absurd h2 (by simp)

theorem pyStrLt_irrefl (a : String) : pyStrLt a a = false :=
  charListLt_irrefl a.toList

theorem pyStrLt_asymm {a b : String} (h : pyStrLt a b = true) :
    pyStrLt b a = false := charListLt_asymm h

theorem pyStrLt_le_trans {a b c : String} (h1 : pyStrLt b a = false)
    (h2 : pyStrLt c b = false) : pyStrLt c a = false :=
  charListLt_le_trans h1 h2

/-! ## Lemmas about the stable sort by the raw `created` string -/

theorem mem_insertByCreated {x h : History} {l : List History} :
    x ∈ insertByCreated h l ↔ x = h ∨ x ∈ l := by
  induction l with
  | nil => simp [insertByCreated]
  | cons h2 hs ih =>
    unfold insertByCreated
    split
    · simp only [List.mem_cons, ih]
      tauto
    · simp only [List.mem_cons]

/-- History `a` precedes or equals `b` in the Python string order of the
`created` keys. -/
def createdLe (a b : History) : Prop := pyStrLt b.created a.created = false

theorem pairwise_insertByCreated {h : History} {l : List History}
    (hl : l.Pairwise createdLe) :
    (insertByCreated h l).Pairwise createdLe := by
  induction l with
  | nil => simp [insertByCreated, List.pairwise_cons]
  | cons h2 hs ih =>
    rw [List.pairwise_cons] at hl
    unfold insertByCreated
    split
    · rename_i hlt
      rw [List.pairwise_cons]
      refine ⟨fun b hb => ?_, ih hl.2⟩
      rcases mem_insertByCreated.mp hb with rfl | hb2
      · exact pyStrLt_asymm hlt
      · exact hl.1 b hb2
    · rename_i hnlt
      rw [Bool.not_eq_true] at hnlt
      rw [List.pairwise_cons]
      refine ⟨fun b hb => ?_, List.pairwise_cons.mpr hl⟩
      rcases List.mem_cons.mp hb with rfl | hb2
      · exact hnlt
      · exact pyStrLt_le_trans hnlt (hl.1 b hb2)

theorem pairwise_sortByCreated (l : List History) :
    (sortByCreated l).Pairwise createdLe := by
  induction l with
  | nil => exact List.Pairwise.nil
  | cons h hs ih => exact pairwise_insertByCreated ih

theorem filter_insertByCreated (h : History) (l : List History) (k : String) :
    (insertByCreated h l).filter (fun x => x.created == k) =
      (if h.created == k then
        h :: l.filter (fun x => x.created == k)
      else l.filter (fun x => x.created == k)) := by
  induction l with
  | nil =>
    by_cases hk : h.created == k <;>
      simp [insertByCreated, List.filter, hk]
  | cons h2 hs ih =>
    unfold insertByCreated
    split
    · rename_i hlt
      rw [List.filter_cons, ih]
      by_cases hk : h.created == k
      · have hne : (h2.created == k) = false := by
          rw [beq_iff_eq] at hk
          rw [beq_eq_false_iff_ne]
          intro hcon
          have he : h2.created = h.created := hcon.trans hk.symm
          rw [he, pyStrLt_irrefl] at hlt
          exact absurd hlt (by simp)
        simp [hk, hne, List.filter_cons]
      · simp only [Bool.not_eq_true] at hk
        simp [hk, List.filter_cons]
    · by_cases hk : h.created == k <;>
        simp [List.filter_cons, hk]

theorem filter_sortByCreated (l : List History) (k : String) :
    (sortByCreated l).filter (fun x => x.created == k) =
      l.filter (fun x => x.created == k) := by
  induction l with
  | nil => rfl
  | cons h hs ih =>
    unfold sortByCreated
    rw [filter_insertByCreated, List.filter_cons, ih]

/-! ## Structure lemmas for the replay state machine -/

theorem closePart_spec {S : List String} {st : ReplayState}
    {c : StatusChange} {st1 : ReplayState}
    (h : closePart S st c = Except.ok st1) :
    st1 = st ∨
    ∃ f cs dur, c.from_status = some f ∧ S.contains f = true ∧
      st.cycleStart = some cs ∧ pySub c.date cs = Except.ok dur ∧
      st1 = ⟨st.total + dur, st.periods ++ [⟨f, cs, c.date, dur⟩], none⟩ := by
  unfold closePart at h
  split at h
  · rename_i f hf
    split at h
    · rename_i hS
      split at h
      · rename_i cs hcs
        split at h
        · exact absurd h (by simp)
        · rename_i dur hdur
          exact Or.inr ⟨f, cs, dur, hf, hS, hcs, hdur,
            (Except.ok.inj h).symm⟩
      · exact Or.inl (Except.ok.inj h).symm
    · exact Or.inl (Except.ok.inj h).symm
  · exact Or.inl (Except.ok.inj h).symm

theorem openPart_periods (S : List String) (st : ReplayState)
    (c : StatusChange) : (openPart S st c).periods = st.periods := by
  unfold openPart
  split
  · split <;> rfl
  · rfl

theorem openPart_total (S : List String) (st : ReplayState)
    (c : StatusChange) : (openPart S st c).total = st.total := by
  unfold openPart
  split
  · split <;> rfl
  · rfl

theorem openPart_cycleStart (S : List String) (st : ReplayState)
    (c : StatusChange) :
    (openPart S st c).cycleStart = st.cycleStart ∨
    (openPart S st c).cycleStart = some c.date := by
  unfold openPart
  split
  · split
    · exact Or.inr rfl
    · exact Or.inl rfl
  · exact Or.inl rfl

theorem step_ok {S : List String} {st : ReplayState} {c : StatusChange}
    {st1 : ReplayState} (h : step S st c = Except.ok st1) :
    ∃ base, closePart S st c = Except.ok base ∧ st1 = openPart S base c := by
  unfold step at h
  cases hc : closePart S st c with
  | error e => rw [hc] at h; exact absurd h (by simp [Except.map])
  | ok base =>
    rw [hc] at h
    refine ⟨base, rfl, ?_⟩
    have h2 : Except.ok (ε := CalcError) (openPart S base c) = Except.ok st1 := by
      simpa [Except.map] using h
    exact (Except.ok.inj h2).symm

theorem runEvents_cons {S : List String} {st : ReplayState}
    {c : StatusChange} {cs : List StatusChange} {st' : ReplayState}
    (h : runEvents S st (c :: cs) = Except.ok st') :
    ∃ st1, step S st c = Except.ok st1 ∧ runEvents S st1 cs = Except.ok st' := by
  unfold runEvents at h
  split at h
  · exact absurd h (by simp)
  · rename_i st1 hstep
    exact ⟨st1, hstep, h⟩

/-- Invariant: the running total is always the sum of the emitted period
durations. -/
theorem runEvents_sum (S : List String) :
    ∀ (changes : List StatusChange) (st st' : ReplayState),
    st.total = (st.periods.map StatusPeriod.duration_us).sum →
    runEvents S st changes = Except.ok st' →
    st'.total = (st'.periods.map StatusPeriod.duration_us).sum := by
  intro changes
  induction changes with
  | nil =>
    intro st st' hinv h
    unfold runEvents at h
    rw [Except.ok.inj h] at hinv
    exact hinv
  | cons c cs ih =>
    intro st st' hinv h
    obtain ⟨st1, hstep, hrest⟩ := runEvents_cons h
    obtain ⟨base, hbase, rfl⟩ := step_ok hstep
    refine ih (openPart S base c) st' ?_ hrest
    rw [openPart_total, openPart_periods]
    rcases closePart_spec hbase with rfl | ⟨f, cs2, dur, _, _, _, _, rfl⟩
    · exact hinv
    · simp [hinv, List.map_append]

/-- Invariant: every emitted period's status is in the configured set. -/
theorem runEvents_status (S : List String) :
    ∀ (changes : List StatusChange) (st st' : ReplayState),
    (∀ p ∈ st.periods, S.contains p.status = true) →
    runEvents S st changes = Except.ok st' →
    ∀ p ∈ st'.periods, S.contains p.status = true := by
  intro changes
  induction changes with
  | nil =>
    intro st st' hinv h
    unfold runEvents at h
    rw [← Except.ok.inj h]
    exact hinv
  | cons c cs ih =>
    intro st st' hinv h
    obtain ⟨st1, hstep, hrest⟩ := runEvents_cons h
    obtain ⟨base, hbase, rfl⟩ := step_ok hstep
    refine ih (openPart S base c) st' ?_ hrest
    rw [openPart_periods]
    rcases closePart_spec hbase with rfl | ⟨f, cs2, dur, _, hfS, _, _, rfl⟩
    · exact hinv
    · intro p hp
      rcases List.mem_append.mp hp with hp1 | hp2
      · exact hinv p hp1
      · rw [List.mem_singleton.mp hp2]
        exact hfS

/-- Invariant: with the event dates non-decreasing in processed order and
bounded by `B`, every emitted period satisfies `start ≤ end` and any open
`cycle_start` stays bounded by `B`. -/
theorem runEvents_mono (S : List String) (B : Int) :
    ∀ (changes : List StatusChange) (st st' : ReplayState),
    changes.Pairwise (fun a b => a.date.micros ≤ b.date.micros) →
    (∀ c ∈ changes, c.date.micros ≤ B) →
    (∀ p ∈ st.periods, p.start.micros ≤ p.endDate.micros) →
    (∀ s, st.cycleStart = some s →
      (∀ c ∈ changes, s.micros ≤ c.date.micros) ∧ s.micros ≤ B) →
    runEvents S st changes = Except.ok st' →
    (∀ p ∈ st'.periods, p.start.micros ≤ p.endDate.micros) ∧
    (∀ s, st'.cycleStart = some s → s.micros ≤ B) := by
  intro changes
  induction changes with
  | nil =>
    intro st st' hpw hbd hper hcs h
    unfold runEvents at h
    rw [← Except.ok.inj h]
    exact ⟨hper, fun s hs => (hcs s hs).2⟩
  | cons c cs ih =>
    intro st st' hpw hbd hper hcs h
    obtain ⟨st1, hstep, hrest⟩ := runEvents_cons h
    obtain ⟨base, hbase, rfl⟩ := step_ok hstep
    rw [List.pairwise_cons] at hpw
    have hbase_per : ∀ p ∈ base.periods, p.start.micros ≤ p.endDate.micros := by
      rcases closePart_spec hbase with rfl | ⟨f, cs2, dur, _, _, hcs2, _, rfl⟩
      · exact hper
      · intro p hp
        rcases List.mem_append.mp hp with hp1 | hp2
        · exact hper p hp1
        · rw [List.mem_singleton.mp hp2]
          exact ((hcs cs2 hcs2).1 c (List.mem_cons_self c cs))
    refine ih (openPart S base c) st' hpw.2 (fun x hx => hbd x (List.mem_cons_of_mem c hx))
      (by rw [openPart_periods]; exact hbase_per) ?_ hrest
    intro s hs
    rcases openPart_cycleStart S base c with hoc | hoc
    · rw [hoc] at hs
      rcases closePart_spec hbase with rfl | ⟨f, cs2, dur, _, _, _, _, rfl⟩
      · exact ⟨fun x hx => (hcs s hs).1 x (List.mem_cons_of_mem c hx), (hcs s hs).2⟩
      · exact absurd hs (by simp)
    · rw [hoc] at hs
      rw [← Option.some.inj hs]
      exact ⟨fun x hx => hpw.1 x hx, hbd c (List.mem_cons_self c cs)⟩

theorem initStart_eq_created {S : List String} {created : PyDateTime}
    {changes : List StatusChange} {s : PyDateTime}
    (h : initStart S created changes = some s) : s = created := by
  unfold initStart at h
  split at h
  · exact absurd h (by simp)
  · split at h
    · split at h
      · exact (Option.some.inj h).symm
      · exact absurd h (by simp)
    · exact absurd h (by simp)

/-! ## Inversion lemmas for `calculate_cycle_time` -/

theorem calc_inversion {S : List String} {now : Int} {issue : Issue}
    {t : Int} {ps : List StatusPeriod}
    (h : calculate_cycle_time S now issue = Except.ok (t, ps)) :
    (issue.changelog = [] ∧ t = 0 ∧ ps = []) ∨
    ∃ created changes fin,
      issue.changelog ≠ [] ∧
      parse_datetime issue.fields.created = some created ∧
      collectChanges (sortByCreated issue.changelog) = Except.ok changes ∧
      runEvents S ⟨0, [], initStart S created changes⟩ changes = Except.ok fin ∧
      finishUp S issue now fin = Except.ok (t, ps) := by
  unfold calculate_cycle_time at h
  split at h
  · rename_i hnil
    have h2 := Prod.mk.inj (Except.ok.inj h)
    exact Or.inl ⟨hnil, h2.1.symm, h2.2.symm⟩
  · rename_i hnil
    split at h
    · exact absurd h (by simp)
    · rename_i created hcd
      split at h
      · exact absurd h (by simp)
      · rename_i changes hch
        split at h
        · exact absurd h (by simp)
        · rename_i fin hrun
          exact Or.inr ⟨created, changes, fin, hnil, hcd, hch, hrun, h⟩

theorem finalEnd_some_inv {r : String} {now : Int} {aw : Bool}
    {e : PyDateTime} (h : finalEnd (some r) now aw = Except.ok e) :
    parse_datetime r = some e := by
  simp only [finalEnd] at h
  split at h
  · rename_i x hx
    rw [Except.ok.inj h] at hx
    exact hx
  · exact absurd h (by simp)

theorem finishUp_inversion {S : List String} {issue : Issue} {now : Int}
    {fin : ReplayState} {t : Int} {ps : List StatusPeriod}
    (h : finishUp S issue now fin = Except.ok (t, ps)) :
    ((fin.cycleStart = none ∨ S.contains issue.fields.status.name = false) ∧
      t = fin.total ∧ ps = fin.periods) ∨
    ∃ cs endDate dur,
      fin.cycleStart = some cs ∧
      S.contains issue.fields.status.name = true ∧
      finalEnd issue.fields.resolutiondate now cs.aware = Except.ok endDate ∧
      pySub endDate cs = Except.ok dur ∧
      t = fin.total + dur ∧
      ps = fin.periods ++ [⟨issue.fields.status.name, cs, endDate, dur⟩] := by
  unfold finishUp at h
  split at h
  · rename_i cs hcs
    split at h
    · rename_i hS
      split at h
      · exact absurd h (by simp)
      · rename_i endDate hend
        split at h
        · exact absurd h (by simp)
        · rename_i dur hdur
          have h2 := Prod.mk.inj (Except.ok.inj h)
          exact Or.inr ⟨cs, endDate, dur, hcs, hS, hend, hdur, h2.1.symm, h2.2.symm⟩
    · rename_i hS
      have h2 := Prod.mk.inj (Except.ok.inj h)
      exact Or.inl ⟨Or.inr (by simpa using hS), h2.1.symm, h2.2.symm⟩
  · rename_i hcs
    have h2 := Prod.mk.inj (Except.ok.inj h)
    exact Or.inl ⟨Or.inl hcs, h2.1.symm, h2.2.symm⟩

/-- The microsecond value of the final `end_date`, as a function of the
snapshot alone (used to bound period ends). -/
def finalEndMicros (issue : Issue) (now : Int) : Int :=
  match issue.fields.resolutiondate with
  | some r =>
    match parse_datetime r with
    | some e => e.micros
    | none => now
  | none => now

theorem finalEnd_micros {issue : Issue} {now : Int} {aw : Bool}
    {e : PyDateTime}
    (h : finalEnd issue.fields.resolutiondate now aw = Except.ok e) :
    e.micros = finalEndMicros issue now := by
  cases hr : issue.fields.resolutiondate with
  | some r =>
    rw [hr] at h
    simp only [finalEnd] at h
    split at h
    · rename_i x hx
      rw [Except.ok.inj h] at hx
      simp [finalEndMicros, hr, hx]
    · exact absurd h (by simp)
  | none =>
    rw [hr] at h
    simp only [finalEnd] at h
    have h2 := Except.ok.inj h
    simp [finalEndMicros, hr, ← h2]

/-! ## Claim C1 -/

/-- Fixture: a history created at 12:00 with UTC offset +02:00
(instant 10:00 UTC). -/
def fxH1 : History :=
  ⟨"0001-01-01T12:00:00+0200", [⟨"status", some "Doing", some "Review"⟩]⟩

/-- Fixture: a history created at 11:00 UTC — lexicographically before
`fxH1.created` but chronologically after it. -/
def fxH2 : History :=
  ⟨"0001-01-01T11:00:00+0000", [⟨"status", some "To Do", some "Doing"⟩]⟩

/-- C1 (counterexample): the flattened status-change list is NOT in
general ordered by the parsed event timestamp.  The engine sorts the
histories by the raw `created` string, and with mixed UTC offsets the
string order disagrees with the parsed instants: `fxH2.created` sorts
before `fxH1.created` although its instant is later. -/
theorem claim1_counterexample :
    ¬ (∀ (hs : List History) (changes : List StatusChange),
        collectChanges (sortByCreated hs) = Except.ok changes →
        changes.Pairwise (fun a b => a.date.micros ≤ b.date.micros)) := by
  intro hcl
  have h := hcl [fxH1, fxH2]
      [⟨⟨26478000000000, true⟩, some "To Do", some "Doing"⟩,
       ⟨⟨26474400000000, true⟩, some "Doing", some "Review"⟩]
      (by decide)
  rw [List.pairwise_cons] at h
  have h2 := h.1 _ (List.mem_singleton.mpr rfl)
  norm_num at h2

/-- C1 (amended): the replay engine sorts the history entries by the raw
`created` string — in non-decreasing Python string order — with a stable
sort: for every key, the subsequence of entries carrying that exact
`created` string keeps its original relative order.  The flattened status
items follow this history order, not the order of the parsed timestamps. -/
theorem claim1_amended (hs : List History) :
    (sortByCreated hs).Pairwise createdLe ∧
    ∀ k : String,
      (sortByCreated hs).filter (fun x => x.created == k) =
        hs.filter (fun x => x.created == k) :=
  ⟨pairwise_sortByCreated hs, fun k => filter_sortByCreated hs k⟩

/-! ## Concrete issue fixtures (dates in January of year 1 keep the
microsecond values exact and small; `0001-01-0d` at midnight UTC is
`(305 + d) * 86400 * 10^6` model microseconds) -/

/-- An issue created 01-04, moved "To Do" → "Doing" on 01-05, currently
"Doing", resolved 01-06. -/
def fxResolved : Issue :=
  ⟨"K-1",
   ⟨"s", ⟨"Doing"⟩, "0001-01-04T00:00:00+0000",
    some "0001-01-06T00:00:00+0000", none, none, none⟩,
   [⟨"0001-01-05T00:00:00+0000", [⟨"status", some "To Do", some "Doing"⟩]⟩]⟩

/-- The single period `fxResolved` produces. -/
def fxPeriod : StatusPeriod :=
  ⟨"Doing", ⟨26784000000000, true⟩, ⟨26870400000000, true⟩, 86400000000⟩

/-- An issue whose `created` (01-02) postdates its only status event
(01-01, "Doing" → "Doing"), currently "Done": the emitted period runs
backwards. -/
def fxNegative : Issue :=
  ⟨"K-2",
   ⟨"s", ⟨"Done"⟩, "0001-01-02T00:00:00+0000", none, none, none, none⟩,
   [⟨"0001-01-01T00:00:00+0000", [⟨"status", some "Doing", some "Doing"⟩]⟩]⟩

/-- An issue still open in "Doing" with no resolution date. -/
def fxOpen : Issue :=
  ⟨"K-3",
   ⟨"s", ⟨"Doing"⟩, "0001-01-01T00:00:00+0000", none, none, none, none⟩,
   [⟨"0001-01-02T00:00:00+0000", [⟨"status", some "To Do", some "Doing"⟩]⟩]⟩

/-- An issue whose walk leaves `cycle_start` set (last event enters
"Doing") but whose snapshot status is "Done" (not a cycle status), with a
resolution date. -/
def fxStuck : Issue :=
  ⟨"K-4",
   ⟨"s", ⟨"Done"⟩, "0001-01-01T00:00:00+0000",
    some "0001-01-03T00:00:00+0000", none, none, none⟩,
   [⟨"0001-01-02T00:00:00+0000", [⟨"status", some "To Do", some "Doing"⟩]⟩]⟩

/-! ## Claim C2 -/

/-- C2 (code bug): a 4xx response other than 429 is NOT failed
immediately with a single attempt.  `raise_for_status()` on the "Success
or client error (don't retry client errors)" line raises
`requests.HTTPError`, a subclass of `RequestException`, which the generic
handler catches and retries with backoff; with `max_retries = 5` a
constant-404 server sees 5 request attempts and 4 backoff sleeps before
the `HTTPError` is surfaced — contradicting both the code's own comment
and the documented contract. -/
theorem claim2_code_divergence :
    makeRequestWithRetry (fun _ => AttemptResult.resp 404 "") 5 =
      ⟨Except.error (ReqError.httpStatus 404), 5, 4, 0⟩ := by decide

/-! ## Claim C7 -/

/-- C7 (confirmed): with `max_retries = 5`, the response sequence
`[500, 500, 200]` yields exactly 2 backoff sleeps, 3 attempts, and the
200 body; five consecutive 500s fail with the surfaced `HTTPError` after
exactly 5 attempts and no more. -/
theorem claim7_retry_traces :
    makeRequestWithRetry
        (fun n => if n ≤ 1 then AttemptResult.resp 500 ""
                  else AttemptResult.resp 200 "the body") 5 =
      ⟨Except.ok "the body", 3, 2, 0⟩ ∧
    makeRequestWithRetry (fun _ => AttemptResult.resp 500 "") 5 =
      ⟨Except.error (ReqError.httpStatus 500), 5, 4, 0⟩ := by decide

/-! ## Claim C8 -/

/-- C8 (confirmed): if the token-cursor strategy raises — on any page,
including the very first — `get_issues` returns exactly what the offset
strategy alone returns for the same query and cap, restarted from offset
0 with an empty accumulator (no partial-result merge). -/
theorem claim8_fallback
    (jqlServer : Option String → Nat → Except FetchErr JqlPage)
    (detail : String → Option Issue)
    (searchServer : Nat → Nat → Except FetchErr SearchPage)
    (maxResults fuel : Nat) (e : FetchErr)
    (h : getIssuesV3Jql jqlServer detail maxResults fuel = Except.error e) :
    get_issues jqlServer detail searchServer maxResults fuel =
      getIssuesV3Search searchServer maxResults fuel ∧
    get_issues jqlServer detail searchServer maxResults fuel =
      getIssuesV3SearchGo searchServer maxResults fuel 0 [] := by
  unfold get_issues
  rw [h]
  exact ⟨rfl, rfl⟩

/-- A token-cursor server that raises on every call. -/
def fxJqlFail : Option String → Nat → Except FetchErr JqlPage :=
  fun _ _ => Except.error (FetchErr.requestFailed "boom")

def fxNoDetail : String → Option Issue := fun _ => none

/-- An offset server returning one single-issue page. -/
def fxSearchSrv : Nat → Nat → Except FetchErr SearchPage :=
  fun _ _ => Except.ok ⟨[fxResolved], 1⟩

theorem claim8_witness :
    getIssuesV3Jql fxJqlFail fxNoDetail 5 6 =
      (Except.error (FetchErr.requestFailed "boom") :
        Except FetchErr (List Issue)) ∧
    get_issues fxJqlFail fxNoDetail fxSearchSrv 5 6 =
      getIssuesV3Search fxSearchSrv 5 6 :=
  ⟨by decide,
   (claim8_fallback fxJqlFail fxNoDetail fxSearchSrv 5 6
     (FetchErr.requestFailed "boom") (by decide)).1⟩

/-! ## Claim C5 -/

/-- C5 (confirmed): an event leaving one cycle-time status (with an open
period) and entering another closes the open period at the event date and
opens a new one at that same instant; when the next event closes that
period, the two emitted periods are adjacent — the first ends and the
second starts at the shared boundary — and the durations partition the
span with no gap and no double count. -/
theorem claim5_adjacent_periods (S : List String) (st : ReplayState)
    (c c2 : StatusChange) (f f2 ts : String) (s : PyDateTime) (d1 d2 : Int)
    (hf : c.from_status = some f) (hfS : S.contains f = true)
    (hcs : st.cycleStart = some s)
    (ht : c.to_status = some ts) (htS : S.contains ts = true)
    (hsub : pySub c.date s = Except.ok d1)
    (hf2 : c2.from_status = some f2) (hf2S : S.contains f2 = true)
    (hsub2 : pySub c2.date c.date = Except.ok d2) :
    ∃ st', runEvents S st [c, c2] = Except.ok st' ∧
      st'.periods = st.periods ++
        [⟨f, s, c.date, d1⟩, ⟨f2, c.date, c2.date, d2⟩] ∧
      st'.total = st.total + d1 + d2 := by
  have hstep1 : step S st c =
      Except.ok ⟨st.total + d1, st.periods ++ [⟨f, s, c.date, d1⟩],
        some c.date⟩ := by
    simp only [step, closePart, openPart, hf, hcs, hsub, ht, if_pos hfS,
      if_pos htS, Except.map]
  have hstep2 : step S ⟨st.total + d1, st.periods ++ [⟨f, s, c.date, d1⟩],
      some c.date⟩ c2 =
      Except.ok (openPart S ⟨st.total + d1 + d2,
        st.periods ++ [⟨f, s, c.date, d1⟩] ++ [⟨f2, c.date, c2.date, d2⟩],
        none⟩ c2) := by
    simp only [step, closePart, hf2, if_pos hf2S, hsub2, Except.map]
  refine ⟨openPart S ⟨st.total + d1 + d2,
      st.periods ++ [⟨f, s, c.date, d1⟩] ++ [⟨f2, c.date, c2.date, d2⟩],
      none⟩ c2, ?_, ?_, ?_⟩
  · simp only [runEvents, hstep1, hstep2]
  · rw [openPart_periods]
    simp [List.append_assoc]
  · rw [openPart_total]

theorem claim5_witness :
    pySub ⟨1000000, true⟩ ⟨0, true⟩ = Except.ok 1000000 ∧
    (∃ st', runEvents ["Doing", "Review"] ⟨0, [], some ⟨0, true⟩⟩
        [⟨⟨1000000, true⟩, some "Doing", some "Review"⟩,
         ⟨⟨2000000, true⟩, some "Review", some "Done"⟩] = Except.ok st' ∧
      st'.periods = [] ++
        [⟨"Doing", ⟨0, true⟩, ⟨1000000, true⟩, 1000000⟩,
         ⟨"Review", ⟨1000000, true⟩, ⟨2000000, true⟩, 1000000⟩] ∧
      st'.total = 0 + 1000000 + 1000000) :=
  ⟨by decide,
   claim5_adjacent_periods ["Doing", "Review"] ⟨0, [], some ⟨0, true⟩⟩
     ⟨⟨1000000, true⟩, some "Doing", some "Review"⟩
     ⟨⟨2000000, true⟩, some "Review", some "Done"⟩
     "Doing" "Review" "Review" ⟨0, true⟩ 1000000 1000000
     rfl (by decide) rfl rfl (by decide) (by decide) rfl (by decide)
     (by decide)⟩

/-! ## Claim C6 -/

theorem usToHours_sum (l : List Int) :
    (l.map usToHours).sum = usToHours l.sum := by
  induction l with
  | nil => simp [usToHours]
  | cons a as ih =>
    simp only [List.map_cons, List.sum_cons, ih, usToHours]
    rw [div_add_div_same, Int.cast_add]

/-- C6 (confirmed): the sum of the period durations equals the returned
total exactly — both at the exact microsecond level and, dividing by the
common constant, at the hours level the source reports. -/
theorem claim6_sum_eq_total (S : List String) (now : Int) (issue : Issue)
    (t : Int) (ps : List StatusPeriod)
    (h : calculate_cycle_time S now issue = Except.ok (t, ps)) :
    (ps.map StatusPeriod.duration_us).sum = t ∧
    (ps.map StatusPeriod.duration_hours).sum = usToHours t := by
  have hus : (ps.map StatusPeriod.duration_us).sum = t := by
    rcases calc_inversion h with ⟨_, rfl, rfl⟩ |
      ⟨created, changes, fin, _, _, _, hrun, hfin⟩
    · simp
    · have hfinSum := runEvents_sum S changes
        ⟨0, [], initStart S created changes⟩ fin (by simp) hrun
      rcases finishUp_inversion hfin with ⟨_, rfl, rfl⟩ |
        ⟨cs, endDate, dur, _, _, _, _, rfl, rfl⟩
      · exact hfinSum.symm
      · simp [List.map_append, hfinSum]
  refine ⟨hus, ?_⟩
  have hmap : ps.map StatusPeriod.duration_hours =
      (ps.map StatusPeriod.duration_us).map usToHours := by
    simp [List.map_map, StatusPeriod.duration_hours, Function.comp]
  rw [hmap, usToHours_sum, hus]

theorem claim6_witness :
    calculate_cycle_time ["Doing"] 0 fxResolved =
      Except.ok (86400000000, [fxPeriod]) ∧
    ([fxPeriod].map StatusPeriod.duration_us).sum = 86400000000 :=
  ⟨by decide,
   (claim6_sum_eq_total ["Doing"] 0 fxResolved 86400000000 [fxPeriod]
     (by decide)).1⟩

/-! ## Claim C9 -/

/-- C9 (counterexample): `calculate_cycle_time` is NOT a function of the
issue and the status set alone — an issue sitting open in a cycle-time
status with no resolution date closes its final period at the
evaluation-time clock, so two calls at different times disagree. -/
theorem claim9_counterexample :
    calculate_cycle_time ["Doing"] 0 fxOpen ≠
      calculate_cycle_time ["Doing"] 3600000000 fxOpen := by decide

/-- C9 (amended): `calculate_cycle_time` is a deterministic function of
the issue, the status set and the evaluation-time clock; whenever the
issue carries a `resolutiondate`, the clock is irrelevant and the call is
a pure function of the issue and status set as claimed. -/
theorem claim9_resolved_now_independent (S : List String) (issue : Issue)
    (r : String) (now1 now2 : Int)
    (h : issue.fields.resolutiondate = some r) :
    calculate_cycle_time S now1 issue = calculate_cycle_time S now2 issue := by
  have hfin : ∀ fin, finishUp S issue now1 fin = finishUp S issue now2 fin := by
    intro fin
    unfold finishUp
    split
    · split
      · rw [h]
        simp only [finalEnd]
      · rfl
    · rfl
  unfold calculate_cycle_time
  split
  · rfl
  · split
    · rfl
    · split
      · rfl
      · split
        · rfl
        · apply hfin

theorem claim9_witness :
    fxResolved.fields.resolutiondate = some "0001-01-06T00:00:00+0000" ∧
    calculate_cycle_time ["Doing"] 0 fxResolved =
      calculate_cycle_time ["Doing"] 5000000 fxResolved :=
  ⟨rfl, claim9_resolved_now_independent ["Doing"] fxResolved
    "0001-01-06T00:00:00+0000" 0 5000000 rfl⟩

/-! ## Claim C10 -/

/-- C10 (confirmed): in every assembled metric record,
`cycle_time_days = cycle_time_hours / 24` when `cycle_time_hours > 0` and
`0` otherwise; in particular it is never negative, even when
`cycle_time_hours` is negative. -/
theorem claim10_days (S : List String) (now : Int) (issues : List Issue)
    (recs : List MetricRecord)
    (h : extract_metrics S now issues = Except.ok recs) :
    ∀ rec ∈ recs,
      rec.cycle_time_days =
        (if rec.cycle_time_hours > 0 then rec.cycle_time_hours / 24 else 0) ∧
      0 ≤ rec.cycle_time_days := by
  induction issues generalizing recs with
  | nil =>
    unfold extract_metrics at h
    rw [← Except.ok.inj h]
    intro rec hrec
    exact absurd hrec (List.not_mem_nil rec)
  | cons i is ih =>
    unfold extract_metrics at h
    cases hm0 : mkMetric S now i with
    | error e =>
      rw [hm0] at h
      exact absurd h (by simp)
    | ok m =>
      rw [hm0] at h
      cases hms0 : extract_metrics S now is with
      | error e =>
        rw [hms0] at h
        exact absurd h (by simp)
      | ok ms =>
        rw [hms0] at h
        have h2 : m :: ms = recs := Except.ok.inj h
        rw [← h2]
        intro rec hrec
        rcases List.mem_cons.mp hrec with rfl | hmem
        · unfold mkMetric at hm0
          cases hp : calculate_cycle_time S now i with
          | error e =>
            rw [hp] at hm0
            exact absurd hm0 (by simp)
          | ok p =>
            obtain ⟨ctUs, ps⟩ := p
            rw [hp] at hm0
            have h3 := Except.ok.inj hm0
            rw [← h3]
            refine ⟨rfl, ?_⟩
            show (0 : ℚ) ≤
              if usToHours ctUs > 0 then usToHours ctUs / 24 else 0
            by_cases hpos : usToHours ctUs > 0
            · rw [if_pos hpos]
              exact le_of_lt (div_pos hpos (by norm_num))
            · rw [if_neg hpos]
        · exact ih ms hms0 rec hmem

/-- The record `extract_metrics` assembles for `fxNegative`: negative
hours, zero days. -/
def fxNegativeRecord : MetricRecord :=
  ⟨"K-2", "s", "Done", "0001-01-02T00:00:00+0000", none,
    none, none, none, usToHours (-86400000000),
    if usToHours (-86400000000) > 0 then usToHours (-86400000000) / 24
    else 0,
    [⟨"Doing", ⟨26524800000000, true⟩, ⟨26438400000000, true⟩,
      -86400000000⟩]⟩

theorem claim10_witness :
    extract_metrics ["Doing"] 0 [fxNegative] =
      Except.ok [fxNegativeRecord] ∧
    ∀ rec ∈ [fxNegativeRecord],
      rec.cycle_time_days =
        (if rec.cycle_time_hours > 0 then rec.cycle_time_hours / 24 else 0) ∧
      0 ≤ rec.cycle_time_days :=
  ⟨rfl, claim10_days ["Doing"] 0 [fxNegative] [fxNegativeRecord] rfl⟩

/-! ## Claim C3 -/

/-- C3 (counterexample): an open `cycle_start` after the last event does
NOT by itself make the engine emit a final period.  With `fxStuck` the
walk ends with `cycle_start` set (last event enters "Doing") and a
resolution date present, yet the snapshot's current status "Done" is not
a cycle-time status, so the guard fails and no final period is emitted at
all. -/
theorem claim3_counterexample :
    ¬ (∀ (S : List String) (now : Int) (issue : Issue)
        (created : PyDateTime) (changes : List StatusChange)
        (fin : ReplayState) (s : PyDateTime) (t : Int)
        (ps : List StatusPeriod),
        parse_datetime issue.fields.created = some created →
        collectChanges (sortByCreated issue.changelog) = Except.ok changes →
        runEvents S ⟨0, [], initStart S created changes⟩ changes =
          Except.ok fin →
        fin.cycleStart = some s →
        calculate_cycle_time S now issue = Except.ok (t, ps) →
        ∃ e dur,
          ps = fin.periods ++ [⟨issue.fields.status.name, s, e, dur⟩] ∧
          (∀ r, issue.fields.resolutiondate = some r →
            parse_datetime r = some e) ∧
          (issue.fields.resolutiondate = none → e = ⟨now, s.aware⟩) ∧
          t = fin.total + dur) := by
  intro hcl
  have h := hcl ["Doing"] 0 fxStuck ⟨26438400000000, true⟩
      [⟨⟨26524800000000, true⟩, some "To Do", some "Doing"⟩]
      ⟨0, [], some ⟨26524800000000, true⟩⟩ ⟨26524800000000, true⟩ 0 []
      (by decide) (by decide) (by decide) rfl (by decide)
  obtain ⟨e, dur, habs, _⟩ := h
  exact absurd habs (by simp)

/-- C3 (amended): when the event walk leaves `cycle_start` set AND the
snapshot's current status is in the cycle-time set, the engine emits
exactly one final period — its end is the parsed `resolutiondate` when
present and the evaluation-time clock otherwise — and adds its duration
to the total. -/
theorem claim3_amended (S : List String) (now : Int) (issue : Issue)
    (created : PyDateTime) (changes : List StatusChange) (fin : ReplayState)
    (s : PyDateTime) (t : Int) (ps : List StatusPeriod)
    (hne : issue.changelog ≠ [])
    (hcd : parse_datetime issue.fields.created = some created)
    (hch : collectChanges (sortByCreated issue.changelog) = Except.ok changes)
    (hrun : runEvents S ⟨0, [], initStart S created changes⟩ changes =
      Except.ok fin)
    (hcs : fin.cycleStart = some s)
    (hcur : S.contains issue.fields.status.name = true)
    (hok : calculate_cycle_time S now issue = Except.ok (t, ps)) :
    ∃ e dur,
      finalEnd issue.fields.resolutiondate now s.aware = Except.ok e ∧
      pySub e s = Except.ok dur ∧
      t = fin.total + dur ∧
      ps = fin.periods ++ [⟨issue.fields.status.name, s, e, dur⟩] ∧
      (∀ r, issue.fields.resolutiondate = some r →
        parse_datetime r = some e) ∧
      (issue.fields.resolutiondate = none → e = ⟨now, s.aware⟩) := by
  rcases calc_inversion hok with ⟨hnil, _, _⟩ |
    ⟨created2, changes2, fin2, _, hcd2, hch2, hrun2, hfin⟩
  · exact absurd hnil hne
  · have e1 : created2 = created :=
      Option.some.inj (hcd2.symm.trans hcd)
    subst e1
    have e2 : changes2 = changes :=
      Except.ok.inj (hch2.symm.trans hch)
    subst e2
    have e3 : fin2 = fin :=
      Except.ok.inj (hrun2.symm.trans hrun)
    subst e3
    rcases finishUp_inversion hfin with ⟨hdead, _, _⟩ |
      ⟨cs, endDate, dur, hcs2, _, hend, hsub, ht, hps⟩
    · rcases hdead with hnone | hfalse
      · rw [hcs] at hnone
        exact absurd hnone (by simp)
      · rw [hcur] at hfalse
        exact absurd hfalse (by simp)
    · have e4 : s = cs := Option.some.inj (hcs.symm.trans hcs2)
      subst e4
      refine ⟨endDate, dur, hend, hsub, ht, hps, ?_, ?_⟩
      · intro r hr
        rw [hr] at hend
        exact finalEnd_some_inv hend
      · intro hr
        rw [hr] at hend
        simp only [finalEnd] at hend
        exact (Except.ok.inj hend).symm

theorem claim3_witness :
    calculate_cycle_time ["Doing"] 0 fxResolved =
      Except.ok (86400000000, [fxPeriod]) ∧
    ∃ e dur,
      finalEnd fxResolved.fields.resolutiondate 0 true = Except.ok e ∧
      pySub e ⟨26784000000000, true⟩ = Except.ok dur ∧
      (86400000000 : Int) = 0 + dur ∧
      [fxPeriod] = [] ++ [⟨"Doing", ⟨26784000000000, true⟩, e, dur⟩] ∧
      (∀ r, fxResolved.fields.resolutiondate = some r →
        parse_datetime r = some e) ∧
      (fxResolved.fields.resolutiondate = none →
        e = ⟨(0 : Int), true⟩) :=
  ⟨by decide,
   claim3_amended ["Doing"] 0 fxResolved ⟨26697600000000, true⟩
     [⟨⟨26784000000000, true⟩, some "To Do", some "Doing"⟩]
     ⟨0, [], some ⟨26784000000000, true⟩⟩ ⟨26784000000000, true⟩
     86400000000 [fxPeriod]
     (by decide) (by decide) (by decide) (by decide) rfl (by decide)
     (by decide)⟩

/-! ## Claim C4 -/

/-- C4 (counterexample): `end >= start` does NOT hold for every emitted
period.  `fxNegative`'s `created` (01-02) postdates its only event
(01-01); the first event enters a cycle status, so `cycle_start` is set
to `created`, and the same event's `from` side closes the period at the
earlier event date — a backwards period with negative duration. -/
theorem claim4_counterexample :
    ¬ (∀ (S : List String) (now : Int) (issue : Issue) (t : Int)
        (ps : List StatusPeriod),
        calculate_cycle_time S now issue = Except.ok (t, ps) →
        ∀ p ∈ ps, p.start.micros ≤ p.endDate.micros ∧
          S.contains p.status = true) := by
  intro hcl
  have h := hcl ["Doing"] 0 fxNegative (-86400000000)
      [⟨"Doing", ⟨26524800000000, true⟩, ⟨26438400000000, true⟩,
        -86400000000⟩]
      (by decide) _ (List.mem_singleton.mpr rfl)
  exact absurd h.1 (by decide)

/-- C4 (amended): every emitted period's status is in the configured
cycle-time set, unconditionally; and `end >= start` holds for every
period provided the parsed event dates are non-decreasing in processed
order, the parsed `created` precedes them all (and the final end), and
every event date precedes the final end used for a still-open period. -/
theorem claim4_amended (S : List String) (now : Int) (issue : Issue)
    (t : Int) (ps : List StatusPeriod)
    (h : calculate_cycle_time S now issue = Except.ok (t, ps)) :
    (∀ p ∈ ps, S.contains p.status = true) ∧
    (∀ changes,
      collectChanges (sortByCreated issue.changelog) = Except.ok changes →
      changes.Pairwise (fun a b => a.date.micros ≤ b.date.micros) →
      (∀ cd, parse_datetime issue.fields.created = some cd →
        (∀ c ∈ changes, cd.micros ≤ c.date.micros) ∧
        cd.micros ≤ finalEndMicros issue now) →
      (∀ c ∈ changes, c.date.micros ≤ finalEndMicros issue now) →
      ∀ p ∈ ps, p.start.micros ≤ p.endDate.micros) := by
  constructor
  · rcases calc_inversion h with ⟨_, _, rfl⟩ |
      ⟨created, changes, fin, _, _, _, hrun, hfin⟩
    · intro p hp
      exact absurd hp (List.not_mem_nil p)
    · have hfinst := runEvents_status S changes
        ⟨0, [], initStart S created changes⟩ fin
        (fun p hp => absurd hp (List.not_mem_nil p)) hrun
      rcases finishUp_inversion hfin with ⟨_, _, rfl⟩ |
        ⟨cs, endDate, dur, _, hcontains, _, _, _, rfl⟩
      · exact hfinst
      · intro p hp
        rcases List.mem_append.mp hp with h1 | h2
        · exact hfinst p h1
        · rw [List.mem_singleton.mp h2]
          exact hcontains
  · intro changes hch hpw hcd hbd p hp
    rcases calc_inversion h with ⟨_, _, rfl⟩ |
      ⟨created, changes2, fin, _, hcd2, hch2, hrun, hfin⟩
    · exact absurd hp (List.not_mem_nil p)
    · have e1 : changes2 = changes := Except.ok.inj (hch2.symm.trans hch)
      rw [e1] at hrun
      have hinit : ∀ s, (⟨0, [], initStart S created changes⟩ :
          ReplayState).cycleStart = some s →
          (∀ c ∈ changes, s.micros ≤ c.date.micros) ∧
          s.micros ≤ finalEndMicros issue now := by
        intro s hs
        have hse : s = created := initStart_eq_created hs
        subst hse
        exact hcd s hcd2
      have hmono := runEvents_mono S (finalEndMicros issue now) changes
        ⟨0, [], initStart S created changes⟩ fin hpw hbd
        (fun p2 hp2 => absurd hp2 (List.not_mem_nil p2)) hinit hrun
      rcases finishUp_inversion hfin with ⟨_, _, rfl⟩ |
        ⟨cs, endDate, dur, hcs, _, hend, _, _, rfl⟩
      · exact hmono.1 p hp
      · rcases List.mem_append.mp hp with h1 | h2
        · exact hmono.1 p h1
        · rw [List.mem_singleton.mp h2]
          show cs.micros ≤ endDate.micros
          rw [finalEnd_micros hend]
          exact hmono.2 cs hcs

theorem claim4_witness :
    calculate_cycle_time ["Doing"] 0 fxResolved =
      Except.ok (86400000000, [fxPeriod]) ∧
    (∀ p ∈ [fxPeriod], List.contains ["Doing"] p.status = true) ∧
    (∀ p ∈ [fxPeriod], p.start.micros ≤ p.endDate.micros) := by
  have h := claim4_amended ["Doing"] 0 fxResolved 86400000000 [fxPeriod]
    (by decide)
  refine ⟨by decide, h.1, ?_⟩
  refine h.2 [⟨⟨26784000000000, true⟩, some "To Do", some "Doing"⟩]
    (by decide) (by decide) ?_ (by decide)
  intro cd hcd
  have hcd0 : parse_datetime fxResolved.fields.created =
      some ⟨26697600000000, true⟩ := by decide
  have he : (⟨26697600000000, true⟩ : PyDateTime) = cd :=
    Option.some.inj (hcd0.symm.trans hcd)
  rw [← he]
  exact ⟨by decide, by decide⟩

end JiraMetrics
